import Mathlib

/-!
Verification development for the atomic-web-agent repository.

The accessibility-snapshot pipeline (accessibility-snapshot.util,
`generateElementId`, `enrichElement`, `generateAccessibilitySnapshot`),
the element registry (element-registry.util), the id-based action tools
(click-by-element-id.tool, input-by-element-id.tool), the message-history
trim middleware, and the AWAgent result-extraction methods
(`extractValidationResult`, `extractStructuredOutput`, `do`) are embedded
as executable Lean definitions, and the spec-level claims about them are
proved or refuted below.

Modelling conventions:
* The live page is a tree of elements (`DomTree`); text nodes are not
  modelled because every code path touched here only visits element nodes
  (`nodeType === Node.ELEMENT_NODE` guards skip the rest).
* The driver boundary (Playwright) is modelled by `PageEnv`: per-element
  visibility / editability / bounding box oracles, plus the standard XPath
  resolution semantics for the two xpath shapes the code emits
  (`//*[@id="..."]` and rooted positional paths).  An `XPath` value is the
  abstract form of the exact string the source builds; `Locator` is the
  handle `page.locator("xpath=" ++ p).first()`.
* Bounding-box coordinates are rationals; `Math.round` is `⌊x + 1/2⌋`.
-/

set_option linter.unusedVariables false

namespace AtomicWebAgent

/-! ### DOM model -/

/-- One DOM element, carrying exactly the attributes and reflected
properties that the extraction pass in `generateAccessibilitySnapshot`
reads.  `idAttr` models `element.id` (empty string when the attribute is
absent, matching the JS falsiness check `if (element.id)`); the
`Option String` attributes model `getAttribute` results (`none` = null).
`typeProp` is the reflected `.type` of an input element; `tag` is
`tagName.toLowerCase()`. -/
structure DomElem where
  tag : String
  idAttr : String
  roleAttr : Option String
  ariaLabel : Option String
  placeholder : Option String
  nameAttr : Option String
  hrefAttr : Option String
  onclickAttr : Option String
  forAttr : Option String
  typeProp : String
  valueProp : String
  checkedProp : Bool
  disabledProp : Bool
  requiredProp : Bool
  textContent : String
deriving Repr, DecidableEq

/-- The element tree of the document: one root element with nested
children, in document order. -/
inductive DomTree where
  | node : DomElem → List DomTree → DomTree
deriving Repr

def DomTree.elemOf : DomTree → DomElem
  | .node e _ => e

def DomTree.tagOf : DomTree → String
  | .node e _ => e.tag

def DomTree.childrenOf : DomTree → List DomTree
  | .node _ cs => cs

/-- JS truthiness of a `getAttribute` result: non-null and non-empty. -/
def truthy : Option String → Bool
  | some s => s ≠ ""
  | none => false

/-- A position in the tree: the list of child indices from the root. -/
abbrev Pos := List Nat

/-- One step of the positional xpath built by `getXPath`: the tag name
together with the number of preceding same-tag element siblings (the
source renders the step as `tag` when the count is `0` and as
`tag[count+1]` otherwise). -/
abbrev Seg := String × Nat

/-- Abstract form of the xpath strings produced by `getXPath`:
`byId i` is the string `//*[@id="i"]`, and `positional segs` is the
rooted path `/seg₁/…/segₙ`. -/
inductive XPath where
  | byId (i : String)
  | positional (segs : List Seg)
deriving Repr, DecidableEq

/-- Number of elements with the given tag in a list of trees; used for
the preceding-sibling count of `getXPath` (the source walks
`previousSibling` links counting same-`nodeName` element nodes). -/
def countTag (cs : List DomTree) (tag : String) : Nat :=
  (cs.filter (fun c => c.tagOf = tag)).length

/-- A raw walked element: its position, the positional-xpath segments
from the root down to it, and the element itself. -/
structure RawElem where
  pos : Pos
  segs : List Seg
  elem : DomElem
deriving Repr, DecidableEq

mutual
/-- Document-order (preorder) walk collecting every element with its
position and positional-xpath segments. -/
def walkTree (t : DomTree) (p : Pos) (segs : List Seg) : List RawElem :=
  match t with
  | .node e cs => ⟨p, segs, e⟩ :: walkChildren cs cs p segs 0

def walkChildren (orig : List DomTree) (cs : List DomTree) (p : Pos)
    (segs : List Seg) (i : Nat) : List RawElem :=
  match cs with
  | [] => []
  | c :: rest =>
      walkTree c (p ++ [i]) (segs ++ [(c.tagOf, countTag (orig.take i) c.tagOf)]) ++
      walkChildren orig rest p segs (i + 1)
end

/-- Every element of the document in document order (what
`document.querySelectorAll` enumerates before filtering). -/
def allElems (t : DomTree) : List RawElem :=
  walkTree t [] [(t.tagOf, 0)]

/-- `getXPath` from accessibility-snapshot.util: an element with a truthy
`id` gets `//*[@id="..."]`; otherwise the rooted positional path built
from same-tag preceding-sibling counts (computed top-down here, which
agrees with the source's bottom-up `previousSibling` loop). -/
def getXPath (r : RawElem) : XPath :=
  if r.elem.idAttr ≠ "" then .byId r.elem.idAttr else .positional r.segs

/-! ### Driver-side xpath resolution (standard XPath semantics for the
two shapes the code emits) -/

/-- The element children of `cs` carrying the given tag, with their child
indices, starting the index count at `i0`. -/
def taggedChildren (cs : List DomTree) (tag : String) (i0 : Nat) :
    List (Nat × DomTree) :=
  match cs with
  | [] => []
  | c :: rest =>
      if c.tagOf = tag then (i0, c) :: taggedChildren rest tag (i0 + 1)
      else taggedChildren rest tag (i0 + 1)

/-- Resolve one positional step from one context node.  A step with
sibling-count `0` was rendered without a predicate and matches every
same-tag child; a step with count `k+1` was rendered `tag[k+2]` and
matches only the (k+2)-nd same-tag child (1-based), i.e. index `k+1` in
`taggedChildren`. -/
def expandNode (pt : Pos × DomTree) (seg : Seg) : List (Pos × DomTree) :=
  let tagged := taggedChildren pt.2.childrenOf seg.1 0
  let sel := if seg.2 = 0 then tagged else (tagged[seg.2]?).toList
  sel.map (fun ic => (pt.1 ++ [ic.1], ic.2))

def resolveStep (L : List (Pos × DomTree)) (seg : Seg) : List (Pos × DomTree) :=
  L.flatMap (fun pt => expandNode pt seg)

def resolveSteps (L : List (Pos × DomTree)) (segs : List Seg) :
    List (Pos × DomTree) :=
  segs.foldl resolveStep L

/-- Node-set of a rooted positional path, in document order.  The first
step is matched against the single root element. -/
def resolvePositional (t : DomTree) (segs : List Seg) : List Pos :=
  match segs with
  | [] => []
  | s :: rest =>
      (resolveSteps (if t.tagOf = s.1 ∧ s.2 = 0 then [([], t)] else []) rest).map
        (fun pt => pt.1)

/-- Node-set of `//*[@id="i"]`: every element whose id attribute equals
`i`, in document order. -/
def resolveById (t : DomTree) (i : String) : List Pos :=
  ((allElems t).filter (fun r => r.elem.idAttr = i)).map (fun r => r.pos)

def resolveXPath (t : DomTree) : XPath → List Pos
  | .byId i => resolveById t i
  | .positional segs => resolvePositional t segs

/-- A stored locator: the code stores `page.locator("xpath=" ++ p).first()`
in the registry, i.e. the xpath together with an implicit first-match
selection. -/
abbrev Locator := XPath

/-- The element a stored locator resolves to at action time: the first
match of its xpath in document order. -/
def Locator.resolveFirst (t : DomTree) (loc : Locator) : Option Pos :=
  (resolveXPath t loc).head?

/-! ### The extraction pass (the `page.evaluate` body of
`generateAccessibilitySnapshot`) -/

/-- `inferRole` from the evaluate body: a truthy explicit `role`
attribute wins; otherwise tag/type heuristics.  An `input` whose type
matches none of the listed cases falls through the remaining tag checks
(none of which can match the tag `input`) to `"generic"`, exactly like
the source. -/
def inferRole (e : DomElem) : String :=
  if truthy e.roleAttr then e.roleAttr.getD ""
  else if e.tag = "button" then "button"
  else if e.tag = "a" then "link"
  else if e.tag = "input" then
    if e.typeProp = "text" ∨ e.typeProp = "email" ∨ e.typeProp = "password" then "textbox"
    else if e.typeProp = "checkbox" then "checkbox"
    else if e.typeProp = "radio" then "radio"
    else if e.typeProp = "search" then "searchbox"
    else if e.typeProp = "submit" then "button"
    else "generic"
  else if e.tag = "textarea" then "textbox"
  else if e.tag = "select" then "combobox"
  else if e.tag = "form" then "form"
  else if e.tag = "nav" then "navigation"
  else if e.tag = "main" then "main"
  else if e.tag = "dialog" then "dialog"
  else "generic"

/-- The `label[for="…"]` query of `getName`: every label element of the
document whose `for` attribute equals the given id value, in document
order. -/
def labelsFor (t : DomTree) (idv : String) : List DomElem :=
  ((allElems t).filter (fun r => r.elem.tag = "label" ∧ r.elem.forAttr = some idv)).map
    (fun r => r.elem)

/-- `getName` from the evaluate body: priority aria-label → placeholder →
name attribute → (buttons/anchors) trimmed text content capped at 100
characters → (inputs) first associated label's trimmed text → "". -/
def getName (t : DomTree) (e : DomElem) : String :=
  if truthy e.ariaLabel then (e.ariaLabel.getD "").trim
  else if truthy e.placeholder then (e.placeholder.getD "").trim
  else if truthy e.nameAttr then (e.nameAttr.getD "").trim
  else if e.tag = "button" ∨ e.tag = "a" then e.textContent.trim.take 100
  else if e.tag = "input" then
    match labelsFor t e.idAttr with
    | l :: _ => l.textContent.trim
    | [] => ""
  else ""

/-- The interactive-element selector list of the extraction pass:
`button, a[href], input, textarea, select, [role='button'], [role='link'],
[role='textbox'], [role='checkbox'], [role='radio'], [role='combobox'],
[onclick]`. -/
def matchesSelectors (e : DomElem) : Bool :=
  e.tag = "button" || (e.tag = "a" && e.hrefAttr.isSome) || e.tag = "input" ||
  e.tag = "textarea" || e.tag = "select" ||
  e.roleAttr = some "button" || e.roleAttr = some "link" ||
  e.roleAttr = some "textbox" || e.roleAttr = some "checkbox" ||
  e.roleAttr = some "radio" || e.roleAttr = some "combobox" ||
  e.onclickAttr.isSome

/-- The raw descriptor produced per element by the evaluate body
(interface `ElementData` in the source). -/
structure ElementData where
  xpath : XPath
  role : String
  name : String
  value : String
  disabled : Bool
  checked : Bool
  required : Bool
  tagName : String
  type : String
deriving Repr, DecidableEq

/-- Build one `ElementData` from a walked element, with the per-element
field logic of the extraction pass (`instanceof` checks become tag
checks). -/
def mkElementData (t : DomTree) (r : RawElem) : ElementData :=
  let e := r.elem
  { xpath := getXPath r
    role := inferRole e
    name := getName t e
    value := if e.tag = "input" || e.tag = "textarea" then e.valueProp else ""
    checked := if e.tag = "input" && e.typeProp = "checkbox" then e.checkedProp else false
    disabled :=
      if e.tag = "button" || e.tag = "input" || e.tag = "select" || e.tag = "textarea"
      then e.disabledProp else false
    required :=
      if e.tag = "input" || e.tag = "select" || e.tag = "textarea"
      then e.requiredProp else false
    tagName := e.tag
    type :=
      if e.tag = "input" || e.tag = "textarea" then
        (if e.tag = "input" then e.typeProp else "textarea")
      else "" }

/-- The walked interactive elements of the document, in document order. -/
def interactiveElems (t : DomTree) : List RawElem :=
  (allElems t).filter (fun r => matchesSelectors r.elem)

/-- The complete `page.evaluate` result: one descriptor per interactive
element, in document order. -/
def extractElementsData (t : DomTree) : List ElementData :=
  (interactiveElems t).map (mkElementData t)

/-! ### Locator registry (element-registry.util) -/

/-- The `Map<string, Locator>` held by `ElementLocatorRegistry`,
modelled extensionally as an association list where `set` replaces any
previous binding of the key. -/
abbrev RegMap := List (String × Locator)

def RegMap.get (m : RegMap) (k : String) : Option Locator :=
  (m.find? (fun p => p.1 = k)).map (fun p => p.2)

def RegMap.set (m : RegMap) (k : String) (v : Locator) : RegMap :=
  (k, v) :: m.filter (fun p => p.1 ≠ k)

def RegMap.clear (_ : RegMap) : RegMap := []

def RegMap.has (m : RegMap) (k : String) : Bool :=
  (RegMap.get m k).isSome

def RegMap.getAllIds (m : RegMap) : List String :=
  m.map (fun p => p.1)

def RegMap.size (m : RegMap) : Nat :=
  m.length

/-! ### Snapshot enrichment (accessibility-snapshot.util) -/

/-- Driver-reported bounding box (floating-point in Playwright, modelled
as rationals). -/
structure RawBBox where
  x : ℚ
  y : ℚ
  w : ℚ
  h : ℚ
deriving Repr, DecidableEq

/-- Rounded bounding box stored in the snapshot. -/
structure BBox where
  x : Int
  y : Int
  w : Int
  h : Int
deriving Repr, DecidableEq

/-- JS `Math.round`. -/
def jsRound (q : ℚ) : Int := ⌊q + 1 / 2⌋

structure Viewport where
  width : Int
  height : Int
deriving Repr, DecidableEq

/-- `ElementSnapshot` from the source.  `children` is typed
`ElementSnapshot[] | undefined` there but every code path sets it to
`undefined`, so the (never-inhabited) list payload is elided. -/
structure ElementSnapshot where
  id : String
  role : String
  name : Option String
  value : Option String
  visible : Bool
  inViewport : Bool
  editable : Bool
  disabled : Option Bool
  checked : Option Bool
  required : Option Bool
  masked : Option Bool
  bbox : Option BBox
  children : Option Unit
deriving Repr, DecidableEq

structure PageSnapshot where
  url : String
  viewport : Viewport
  elements : List ElementSnapshot
deriving Repr, DecidableEq

/-- The driver-facing state of the live page: its element tree, url,
viewport, and the per-element results of the driver calls `isVisible`,
`boundingBox`, `isEditable` (each already `.catch`-wrapped in the source,
so modelled as total functions giving the post-catch value). -/
structure PageEnv where
  tree : DomTree
  url : String
  viewportSize : Option (Int × Int)
  visible : Pos → Bool
  bboxOf : Pos → Option RawBBox
  editable : Pos → Bool

/-- `generateElementId`: the template literal `role + "_" + counter`,
where the counter is the running generation-pass counter (the source's
module-level `elementIdCounter`, threaded explicitly here). -/
def generateElementId (role : String) (counter : Nat) : String :=
  role ++ "_" ++ Nat.repr counter

/-- State threaded through one generation pass: the locator map being
populated and the id counter. -/
structure EnrichState where
  reg : RegMap
  counter : Nat
deriving Repr, DecidableEq

/-- `enrichElement`: assign the id (always incrementing the counter),
resolve the xpath, bail out with no registry entry when there is no
match, otherwise register `id → locator.first()` before the visibility
check; a hidden element is dropped from the output but its registry
entry stays. -/
def enrichElement (env : PageEnv) (ed : ElementData) (st : EnrichState) :
    Option ElementSnapshot × EnrichState :=
  let id := generateElementId ed.role st.counter
  let st1 : EnrichState := { st with counter := st.counter + 1 }
  let matchList := resolveXPath env.tree ed.xpath
  if matchList.length = 0 then (none, st1)
  else
    let element := matchList.headI
    let st2 : EnrichState := { st1 with reg := st1.reg.set id ed.xpath }
    let isVisible := env.visible element
    if !isVisible then (none, st2)
    else
      let boundingBox := env.bboxOf element
      let viewport := env.viewportSize.getD (1280, 800)
      let isInViewport :=
        match boundingBox with
        | some bb =>
            decide (bb.x ≥ 0 ∧ bb.y ≥ 0 ∧
              bb.x + bb.w ≤ (viewport.1 : ℚ) ∧ bb.y + bb.h ≤ (viewport.2 : ℚ))
        | none => false
      let isEditable := env.editable element
      (some
        { id := id
          role := ed.role
          name := if ed.name = "" then none else some ed.name
          value := if ed.value = "" then none else some ed.value
          visible := isVisible
          inViewport := isInViewport
          editable := isEditable
          disabled := if ed.disabled then some true else none
          checked := if ed.checked then some true else none
          required := if ed.required then some true else none
          masked := if ed.type = "password" then some true else none
          bbox := boundingBox.map
            (fun bb => ⟨jsRound bb.x, jsRound bb.y, jsRound bb.w, jsRound bb.h⟩)
          children := none }, st2)

/-- The enrichment loop of `generateAccessibilitySnapshot`: enrich each
descriptor in order, keeping the non-null results. -/
def runEnrich (env : PageEnv) :
    List ElementData → EnrichState → List ElementSnapshot × EnrichState
  | [], st => ([], st)
  | ed :: rest, st =>
      let r := enrichElement env ed st
      let tail := runEnrich env rest r.2
      (r.1.toList ++ tail.1, tail.2)

/-- `generateAccessibilitySnapshot`: reset the counter, clear the locator
map, extract the raw descriptors, enrich them, and return the snapshot
together with the repopulated map. -/
def generateAccessibilitySnapshot (env : PageEnv) (locatorMap : RegMap) :
    PageSnapshot × RegMap :=
  let cleared := RegMap.clear locatorMap
  let elementsData := extractElementsData env.tree
  let viewportSize := env.viewportSize.getD (1280, 800)
  let res := runEnrich env elementsData ⟨cleared, 0⟩
  ({ url := env.url
     viewport := ⟨viewportSize.1, viewportSize.2⟩
     elements := res.1 }, res.2.reg)

/-! ### Action tools (click-by-element-id.tool, input-by-element-id.tool) -/

/-- A driver-level operation performed by an action tool. -/
inductive DriverOp where
  | click (loc : Locator)
  | editableCheck (loc : Locator)
  | fill (loc : Locator) (text : String)
deriving Repr, DecidableEq

instance {ε α : Type} [DecidableEq ε] [DecidableEq α] : DecidableEq (Except ε α)
  | .ok a, .ok b =>
      if h : a = b then isTrue (by rw [h])
      else isFalse (by intro hh; cases hh; exact h rfl)
  | .ok _, .error _ => isFalse (by intro h; cases h)
  | .error _, .ok _ => isFalse (by intro h; cases h)
  | .error a, .error b =>
      if h : a = b then isTrue (by rw [h])
      else isFalse (by intro hh; cases hh; exact h rfl)

/-- What one tool invocation produced: the value returned to the agent
runtime (or the thrown error's message) and the driver operations
performed, in order. -/
structure ToolOutcome where
  result : Except String String
  ops : List DriverOp
deriving Repr, DecidableEq

/-- `clickByElementIdTool`: look the id up in the registry; when absent,
fail with the fresh-snapshot error and touch the driver not at all;
otherwise click with a 5000ms timeout, wrapping a driver failure
(`clickResult` is the driver's outcome for the click, error = the
underlying message). -/
def clickByElementIdTool (elementRegistry : RegMap)
    (clickResult : Locator → Except String Unit) (elementId : String) :
    ToolOutcome :=
  match RegMap.get elementRegistry elementId with
  | none =>
      { result := .error ("Element ID \"" ++ elementId ++
          "\" not found in registry. Please take a fresh DOM snapshot first using GetDOMSnapshot tool.")
        ops := [] }
  | some locator =>
      match clickResult locator with
      | .ok _ =>
          { result := .ok ("Successfully clicked on element " ++ elementId)
            ops := [.click locator] }
      | .error e =>
          { result := .error ("Failed to click on element " ++ elementId ++ ": " ++ e)
            ops := [.click locator] }

/-- `inputByElementIdTool`: look the id up in the registry; when absent,
fail with the fresh-snapshot error and touch the driver not at all;
otherwise check editability first (`.catch(() => false)` makes the check
total), failing before any fill when the element is not editable, and
only then fill with a 5000ms timeout.  Thrown inner errors are wrapped by
the surrounding catch exactly as in the source. -/
def inputByElementIdTool (elementRegistry : RegMap)
    (isEditableResult : Locator → Bool)
    (fillResult : Locator → String → Except String Unit)
    (elementId text : String) : ToolOutcome :=
  match RegMap.get elementRegistry elementId with
  | none =>
      { result := .error ("Element ID \"" ++ elementId ++
          "\" not found in registry. Please take a fresh DOM snapshot first using GetDOMSnapshot tool.")
        ops := [] }
  | some locator =>
      if isEditableResult locator then
        match fillResult locator text with
        | .ok _ =>
            { result := .ok ("Successfully filled element " ++ elementId ++
                " with text: \"" ++ text ++ "\"")
              ops := [.editableCheck locator, .fill locator text] }
        | .error e =>
            { result := .error ("Failed to input text into element " ++ elementId ++ ": " ++ e)
              ops := [.editableCheck locator, .fill locator text] }
      else
        { result := .error ("Failed to input text into element " ++ elementId ++
            ": Element " ++ elementId ++ " is not editable")
          ops := [.editableCheck locator] }

/-! ### Conversation messages and the AWAgent result extraction -/

/-- A JSON value (argument / content payloads crossing the model
boundary). -/
inductive Json where
  | null
  | bool (b : Bool)
  | num (n : Int)
  | str (s : String)
  | arr (xs : List Json)
  | obj (fields : List (String × Json))
deriving Repr

/-- The payload `validateConditionTool` serializes and
`extractValidationResult` parses back. -/
structure ValidationPayload where
  result : Bool
  reasoning : String
deriving Repr, DecidableEq

/-- One entry of an AI message's `tool_calls`; `argsResult` is the
`result` field of its arguments object (the only field
`extractValidationResult` reads). -/
structure ToolCall where
  name : String
  argsResult : Bool
deriving Repr, DecidableEq

/-- `message.content` of an assistant message: either a string or a
structured object. -/
inductive MsgContent where
  | str (s : String)
  | obj (d : Json)
deriving Repr

/-- A conversation message, restricted to the fields the AWAgent methods
inspect.  A `tool` message carries the outcome of `JSON.parse` on its
string content (`Except.error e` = the parse threw with message `e`);
an `ai` message carries its content, its `tool_calls`, and
`additional_kwargs.structured_output` when present. -/
inductive Msg where
  | system (content : String)
  | human (content : String)
  | ai (content : MsgContent) (toolCalls : List ToolCall)
      (structuredKwargs : Option Json)
  | tool (name : String) (parsed : Except String ValidationPayload)
deriving Repr

/-- `AWAgent.extractValidationResult`, written over the reversed message
list: the source's `for (let i = messages.length - 1; i >= 0; i--)` loop
visits most recent first; a `ToolMessage` named `ReturnValidationResult`
returns its parsed `result` (a parse failure throws); an `AIMessage`
returns the `result` argument of its first `ReturnValidationResult` tool
call; exhausting the history throws. -/
def extractValidationResultRev : List Msg → Except String Bool
  | [] =>
      .error "Validation result not found in agent response. The agent did not call ReturnValidationResult."
  | m :: rest =>
      match m with
      | .tool name parsed =>
          if name = "ReturnValidationResult" then
            match parsed with
            | .ok v => .ok v.result
            | .error e => .error ("Failed to parse validation result: " ++ e)
          else extractValidationResultRev rest
      | .ai _ toolCalls _ =>
          match toolCalls.find? (fun tc => tc.name = "ReturnValidationResult") with
          | some tc => .ok tc.argsResult
          | none => extractValidationResultRev rest
      | _ => extractValidationResultRev rest

def extractValidationResult (messages : List Msg) : Except String Bool :=
  extractValidationResultRev messages.reverse

/-- One issue of a `z.ZodError`: the field path (`path.join(".")` joins
it with dots; numeric path entries appear as their decimal strings) and
the reason. -/
structure ZodIssue where
  path : List String
  message : String
deriving Repr, DecidableEq

/-- A Zod schema over `T`: parsing either yields a validated value or
throws a `ZodError` carrying the list of issues. -/
structure ZodSchema (T : Type) where
  parse : Json → Except (List ZodIssue) T

/-- The joined issue list of the `SchemaValidationFailure` message:
`error.issues.map(e => path.join(".") + ": " + e.message).join(", ")`. -/
def formatZodIssues (issues : List ZodIssue) : String :=
  String.intercalate ", "
    (issues.map (fun i => String.intercalate "." i.path ++ ": " ++ i.message))

/-- The channel `extractStructuredOutput` picks the structured data from:
object content first, then `additional_kwargs.structured_output`, then
`JSON.parse` of string content (`jsonParse` models the JS builtin;
`none` = the parse threw). -/
def structuredDataOf (jsonParse : String → Option Json) (content : MsgContent)
    (structuredKwargs : Option Json) : Except String Json :=
  match content with
  | .obj d => .ok d
  | .str s =>
      match structuredKwargs with
      | some d => .ok d
      | none =>
          match jsonParse s with
          | some j => .ok j
          | none => .error "Could not parse structured output from response"

/-- `AWAgent.extractStructuredOutput`: take the last message; anything
but an AI message fails with the no-structured-output error; otherwise
pick the structured data (a parse failure is re-wrapped by the catch as a
runtime failure), validate it against the schema, turn a `ZodError` into
the `Extracted data validation failed` message listing every issue, and
return the validated value otherwise. -/
def extractStructuredOutput {T : Type} (jsonParse : String → Option Json)
    (messages : List Msg) (schema : ZodSchema T) : Except String T :=
  match messages.getLast? with
  | some (.ai content toolCalls structuredKwargs) =>
      match structuredDataOf jsonParse content structuredKwargs with
      | .error e => .error ("Failed to extract structured output: " ++ e)
      | .ok structuredData =>
          match schema.parse structuredData with
          | .ok validatedData => .ok validatedData
          | .error issues =>
              .error ("Extracted data validation failed: " ++ formatZodIssues issues)
  | _ =>
      .error "No structured output found in agent response. Expected an AI message with structured data."

/-! ### Trim middleware and the middleware wiring of the three agent
protocols -/

/-- The part of a `wrapModelCall` request the trim middleware touches. -/
structure ModelRequest where
  messages : List Msg

/-- JS `array.slice(-n)`: the suffix of length at most `n`. -/
def jsSliceLast {α : Type} (n : Nat) (l : List α) : List α :=
  l.drop (l.length - n)

/-- `trimMessagesHistoryMiddleware.wrapModelCall`: forward to the handler
with the message list replaced by `messages.slice(-10)`. -/
def trimMessagesHistoryMiddleware {R : Type} (request : ModelRequest)
    (handler : ModelRequest → R) : R :=
  handler { request with messages := jsSliceLast 10 request.messages }

inductive MiddlewareName where
  | logging
  | trimMessageHistory
deriving Repr, DecidableEq

/-- Middleware list of the `createAgent` call inside `AWAgent.do`. -/
def doAgentMiddleware : List MiddlewareName :=
  [.logging, .trimMessageHistory]

/-- Middleware list of the `createAgent` call inside `AWAgent.test`. -/
def testAgentMiddleware : List MiddlewareName :=
  [.logging, .trimMessageHistory]

/-- Middleware list of the `createAgent` call inside `AWAgent.extract`
(none: the comment in the source says middleware is incompatible with
`providerStrategy` structured output). -/
def extractAgentMiddleware : List MiddlewareName := []

/-- What a call to `AWAgent.do` produces for its caller.  `returned`
models the JS return value: the source ends with
`return console.log(response.messages.at(-1)!.content)` and
`console.log` returns `undefined`, so `returned` can only ever be
`none`; `consoleLogged` is the content value passed to `console.log`. -/
structure DoOutcome where
  consoleLogged : MsgContent
  returned : Option MsgContent
deriving Repr

/-- The content value of a message, as handed to `console.log`
(string messages log their string; tool messages log their serialized
content, elided here since `AWAgent.do` only ever logs the final
assistant message in the theorems below). -/
def Msg.contentOf : Msg → MsgContent
  | .system s => .str s
  | .human s => .str s
  | .ai c _ _ => c
  | .tool _ _ => .str ""

/-- `AWAgent.do`: wrap the task in a human message, run the agent
runtime's loop (`invokeAgent` models `this.agent.invoke`, the external
iterate-until-no-more-tool-calls loop), then
`return console.log(response.messages.at(-1)!.content)`.  The `none`
branch models the runtime `TypeError` of `.at(-1)!` on an empty list. -/
def AWAgent.doTask (invokeAgent : List Msg → List Msg) (task : String) :
    Option DoOutcome :=
  (invokeAgent [Msg.human task]).getLast?.map
    (fun m => { consoleLogged := m.contentOf, returned := none })

/-- The element-output part of `enrichElement`, which never reads the
registry being threaded through the pass. -/
def enrichPure (env : PageEnv) (ed : ElementData) (counter : Nat) :
    Option ElementSnapshot :=
  (enrichElement env ed ⟨[], counter⟩).1

/-- Structural decimal rendering of a natural number, most significant
digit first; proved below to agree with `Nat.repr`. -/
def decChars (n : Nat) : List Char :=
  if h : n < 10 then [Nat.digitChar n]
  else decChars (n / 10) ++ [Nat.digitChar (n % 10)]
decreasing_by exact Nat.div_lt_self (by omega) (by omega)

def digitVal (c : Char) : Nat := c.toNat - '0'.toNat

def decVal (l : List Char) : Nat :=
  l.foldl (fun a c => 10 * a + digitVal c) 0

/-! ### Concrete fixtures (pages and conversations used to instantiate
the theorems below on closed inputs) -/

def fixtureButton (idv : String) : DomElem :=
  { tag := "button", idAttr := idv, roleAttr := none, ariaLabel := none,
    placeholder := none, nameAttr := none, hrefAttr := none,
    onclickAttr := none, forAttr := none, typeProp := "submit",
    valueProp := "", checkedProp := false, disabledProp := false,
    requiredProp := false, textContent := "Click" }

def fixtureHtml : DomElem :=
  { tag := "html", idAttr := "", roleAttr := none, ariaLabel := none,
    placeholder := none, nameAttr := none, hrefAttr := none,
    onclickAttr := none, forAttr := none, typeProp := "", valueProp := "",
    checkedProp := false, disabledProp := false, requiredProp := false,
    textContent := "" }

/-- A document whose two buttons share the id attribute `x` (duplicate
ids are invalid HTML but browsers render such documents). -/
def fixtureTreeDup : DomTree :=
  .node fixtureHtml [.node (fixtureButton "x") [], .node (fixtureButton "x") []]

def fixtureEnvDup : PageEnv :=
  { tree := fixtureTreeDup, url := "http://example.test",
    viewportSize := some (1280, 800), visible := fun _ => true,
    bboxOf := fun _ => none, editable := fun _ => false }

/-- A document with two id-less buttons. -/
def fixtureTreePlain : DomTree :=
  .node fixtureHtml [.node (fixtureButton "") [], .node (fixtureButton "") []]

def fixtureEnvPlain : PageEnv :=
  { tree := fixtureTreePlain, url := "http://example.test",
    viewportSize := some (1280, 800), visible := fun _ => true,
    bboxOf := fun _ => none, editable := fun _ => false }

/-- Same document, with the second button reported hidden by the
driver. -/
def fixtureEnvHidden : PageEnv :=
  { tree := fixtureTreePlain, url := "http://example.test",
    viewportSize := some (1280, 800), visible := fun p => decide (p ≠ [1]),
    bboxOf := fun _ => none, editable := fun _ => false }

/-- Whether a message carries the terminal validation tool, either as a
completed tool result or as a pending tool call — the two shapes
`extractValidationResult` reacts to. -/
def mentionsTerminalTool : Msg → Bool
  | .tool name _ => name = "ReturnValidationResult"
  | .ai _ toolCalls _ => toolCalls.any (fun tc => tc.name = "ReturnValidationResult")
  | _ => false

/-- An agent-runtime loop that answers any task with one final assistant
message and no tool calls. -/
def fixtureDoLoop : List Msg → List Msg :=
  fun msgs => msgs ++ [Msg.ai (.str "All done") [] none]

def fixtureIssues : List ZodIssue :=
  [⟨["items", "0", "price"], "Required"⟩, ⟨["title"], "Expected string"⟩]

/-- A schema accepting exactly boolean payloads. -/
def fixtureSchema : ZodSchema Bool :=
  ⟨fun j => match j with
    | .bool b => .ok b
    | _ => .error fixtureIssues⟩

def fixtureExtractMsgs : List Msg :=
  [Msg.ai (.obj (Json.bool true)) [] none]

def fixtureExtractMsgsBad : List Msg :=
  [Msg.ai (.obj (Json.str "oops")) [] none]

/-! ### Lemmas: decimal rendering and injectivity of the generated ids -/

theorem digitChar_isDigit (m : Nat) (h : m < 10) : (Nat.digitChar m).isDigit := by
  interval_cases m <;> decide

theorem digitVal_digitChar (m : Nat) (h : m < 10) :
    digitVal (Nat.digitChar m) = m := by
  interval_cases m <;> decide

theorem mem_decChars_isDigit (n : Nat) : ∀ c ∈ decChars n, c.isDigit := by
  induction n using Nat.strong_induction_on with
  | _ n ih =>
    rw [decChars]
    split
    · intro c hc
      rw [List.mem_singleton] at hc
      subst hc
      exact digitChar_isDigit n (by omega)
    · intro c hc
      rcases List.mem_append.mp hc with h1 | h2
      · exact ih (n / 10) (Nat.div_lt_self (by omega) (by omega)) c h1
      · rw [List.mem_singleton] at h2
        subst h2
        exact digitChar_isDigit _ (Nat.mod_lt _ (by omega))

theorem decVal_append (l : List Char) (c : Char) :
    decVal (l ++ [c]) = 10 * decVal l + digitVal c := by
  simp [decVal, List.foldl_append]

theorem decVal_decChars (n : Nat) : decVal (decChars n) = n := by
  induction n using Nat.strong_induction_on with
  | _ n ih =>
    rw [decChars]
    split
    · simp [decVal, digitVal_digitChar n (by omega)]
    · rw [decVal_append, ih (n / 10) (Nat.div_lt_self (by omega) (by omega)),
        digitVal_digitChar _ (Nat.mod_lt _ (by omega))]
      omega

theorem decChars_injective {m n : Nat} (h : decChars m = decChars n) : m = n := by
  have := congrArg decVal h
  rwa [decVal_decChars, decVal_decChars] at this

theorem toDigitsCore_acc (fuel : Nat) : ∀ n acc,
    Nat.toDigitsCore 10 fuel n acc = Nat.toDigitsCore 10 fuel n [] ++ acc := by
  induction fuel with
  | zero => intro n acc; simp [Nat.toDigitsCore]
  | succ f ih =>
    intro n acc
    by_cases h : n / 10 = 0
    · simp [Nat.toDigitsCore, h]
    · simp only [Nat.toDigitsCore, h, if_false]
      rw [ih (n / 10) [Nat.digitChar (n % 10)],
        ih (n / 10) (Nat.digitChar (n % 10) :: acc), List.append_assoc]
      rfl

theorem toDigitsCore_eq_decChars : ∀ fuel n acc, n < fuel →
    Nat.toDigitsCore 10 fuel n acc = decChars n ++ acc := by
  intro fuel
  induction fuel with
  | zero => intro n acc h; omega
  | succ f ih =>
    intro n acc h
    by_cases h0 : n / 10 = 0
    · have hn : n < 10 := by omega
      simp [Nat.toDigitsCore, h0, decChars, hn, Nat.mod_eq_of_lt hn]
    · have hlt : n / 10 < f := by
        have h1 : n / 10 < n := Nat.div_lt_self (by omega) (by omega)
        omega
      simp only [Nat.toDigitsCore, h0, if_false]
      rw [ih (n / 10) (Nat.digitChar (n % 10) :: acc) hlt]
      have hn : ¬ n < 10 := by omega
      conv_rhs => rw [decChars]
      simp [hn, List.append_assoc]

theorem repr_data_eq_decChars (n : Nat) : (Nat.repr n).data = decChars n := by
  show (Nat.toDigits 10 n).asString.data = decChars n
  rw [Nat.toDigits, toDigitsCore_eq_decChars (n + 1) n [] (Nat.lt_succ_self n)]
  simp [List.asString]

theorem underscore_not_mem_repr (n : Nat) : '_' ∉ (Nat.repr n).data := by
  rw [repr_data_eq_decChars]
  intro h
  have := mem_decChars_isDigit n _ h
  exact absurd this (by decide)

theorem append_cons_inj {α : Type} (c : α) :
    ∀ (x1 x2 y1 y2 : List α), c ∉ x1 → c ∉ x2 →
      x1 ++ c :: y1 = x2 ++ c :: y2 → x1 = x2 ∧ y1 = y2 := by
  intro x1
  induction x1 with
  | nil =>
    intro x2 y1 y2 _ h2 he
    cases x2 with
    | nil => simpa using he
    | cons b x2 =>
      simp only [List.nil_append, List.cons_append, List.cons.injEq] at he
      exact absurd (he.1 ▸ List.mem_cons_self b x2) h2
  | cons a x1 ih =>
    intro x2 y1 y2 h1 h2 he
    cases x2 with
    | nil =>
      simp only [List.cons_append, List.nil_append, List.cons.injEq] at he
      exact absurd (he.1 ▸ List.mem_cons_self a x1) (he.1 ▸ h1)
    | cons b x2 =>
      simp only [List.cons_append, List.cons.injEq] at he
      have h1' : c ∉ x1 := fun hm => h1 (List.mem_cons_of_mem a hm)
      have h2' : c ∉ x2 := fun hm => h2 (List.mem_cons_of_mem b hm)
      obtain ⟨hx, hy⟩ := ih x2 y1 y2 h1' h2' he.2
      exact ⟨by rw [he.1, hx], hy⟩

/-- The decimal counter suffix determines the counter: two generated ids
are equal only when the counters agree (whatever the two roles are). -/
theorem generateElementId_counter_inj {r1 r2 : String} {k1 k2 : Nat}
    (h : generateElementId r1 k1 = generateElementId r2 k2) : k1 = k2 := by
  have hd : r1.data ++ '_' :: (Nat.repr k1).data =
      r2.data ++ '_' :: (Nat.repr k2).data := by
    have := congrArg String.data h
    simpa [generateElementId, String.data_append, List.append_assoc] using this
  have hrev := congrArg List.reverse hd
  simp only [List.reverse_append, List.reverse_cons, List.append_assoc] at hrev
  have h1 : '_' ∉ (Nat.repr k1).data.reverse := by
    rw [List.mem_reverse]; exact underscore_not_mem_repr k1
  have h2 : '_' ∉ (Nat.repr k2).data.reverse := by
    rw [List.mem_reverse]; exact underscore_not_mem_repr k2
  have := (append_cons_inj '_' _ _ _ _ h1 h2 (by simpa using hrev)).1
  have hdata : (Nat.repr k1).data = (Nat.repr k2).data := by
    have := congrArg List.reverse this
    simpa using this
  rw [repr_data_eq_decChars, repr_data_eq_decChars] at hdata
  exact decChars_injective hdata

/-! ### Lemmas: registry map -/

theorem RegMap.get_set_self (m : RegMap) (k : String) (v : Locator) :
    (m.set k v).get k = some v := by
  simp [RegMap.get, RegMap.set, List.find?]

theorem RegMap.get_set_ne (m : RegMap) {k k' : String} (v : Locator)
    (h : k' ≠ k) : (m.set k v).get k' = m.get k' := by
  have hk : (decide ((k, v).1 = k')) = false := by
    simp only [decide_eq_false_iff_not]
    exact fun hh => h hh.symm
  simp only [RegMap.get, RegMap.set, List.find?_cons, hk, List.find?_filter]
  have hpred : ∀ a : String × Locator,
      (decide (decide (a.1 ≠ k) = true ∧ decide (a.1 = k') = true)) =
        decide (a.1 = k') := by
    intro a
    by_cases ha : a.1 = k'
    · have hak : a.1 ≠ k := ha ▸ h
      simp [ha, hak, h]
    · simp [ha]
  simp only [hpred]

theorem RegMap.get_set_isSome (m : RegMap) (k k' : String) (v : Locator)
    (h : (m.get k').isSome) : ((m.set k v).get k').isSome := by
  by_cases hk : k' = k
  · subst hk; rw [RegMap.get_set_self]; rfl
  · rwa [RegMap.get_set_ne m v hk]

/-! ### Lemmas: one enrichment step -/

/-- Full characterization of `enrichElement`: the produced element only
depends on the counter, the counter always advances by one (dropped
elements burn an id), and the registry gains the binding exactly when the
xpath has at least one match. -/
theorem enrichElement_eq (env : PageEnv) (ed : ElementData) (st : EnrichState) :
    enrichElement env ed st =
      (enrichPure env ed st.counter,
       ⟨if (resolveXPath env.tree ed.xpath).length = 0 then st.reg
         else st.reg.set (generateElementId ed.role st.counter) ed.xpath,
        st.counter + 1⟩) := by
  by_cases h0 : (resolveXPath env.tree ed.xpath).length = 0
  · simp [enrichElement, enrichPure, h0]
  · by_cases hv : env.visible (resolveXPath env.tree ed.xpath).headI
    · simp [enrichElement, enrichPure, h0, hv]
    · simp [enrichElement, enrichPure, h0, hv]

theorem enrichPure_some_id {env : PageEnv} {ed : ElementData} {c : Nat}
    {e : ElementSnapshot} (h : enrichPure env ed c = some e) :
    e.id = generateElementId ed.role c := by
  unfold enrichPure enrichElement at h
  by_cases h0 : (resolveXPath env.tree ed.xpath).length = 0
  · simp [h0] at h
  · by_cases hv : env.visible (resolveXPath env.tree ed.xpath).headI
    · simp only [h0, if_false, hv, Bool.not_true, if_neg, Bool.false_eq_true,
        not_false_eq_true] at h
      simp only [Option.some.injEq] at h
      rw [← h]
    · simp [h0, hv] at h

theorem enrichPure_some_resolves {env : PageEnv} {ed : ElementData} {c : Nat}
    {e : ElementSnapshot} (h : enrichPure env ed c = some e) :
    (resolveXPath env.tree ed.xpath).length ≠ 0 := by
  intro h0
  unfold enrichPure enrichElement at h
  simp [h0] at h

/-- A descriptor whose xpath matches but whose first match is reported
not visible is dropped. -/
theorem enrichPure_none_of_invisible {env : PageEnv} {ed : ElementData}
    (c : Nat) (h0 : (resolveXPath env.tree ed.xpath).length ≠ 0)
    (hv : env.visible (resolveXPath env.tree ed.xpath).headI = false) :
    enrichPure env ed c = none := by
  unfold enrichPure enrichElement
  simp [h0, hv]

/-! ### Lemmas: the enrichment fold -/

theorem runEnrich_counter (env : PageEnv) :
    ∀ (ds : List ElementData) (st : EnrichState),
      (runEnrich env ds st).2.counter = st.counter + ds.length := by
  intro ds
  induction ds with
  | nil => intro st; simp [runEnrich]
  | cons ed rest ih =>
    intro st
    simp only [runEnrich, enrichElement_eq]
    rw [ih]
    simp
    omega

theorem runEnrich_mem_iff (env : PageEnv) :
    ∀ (ds : List ElementData) (st : EnrichState) (e : ElementSnapshot),
      e ∈ (runEnrich env ds st).1 ↔
        ∃ k, ∃ h : k < ds.length,
          enrichPure env (ds.get ⟨k, h⟩) (st.counter + k) = some e := by
  intro ds
  induction ds with
  | nil =>
    intro st e
    simp [runEnrich]
  | cons ed rest ih =>
    intro st e
    simp only [runEnrich, enrichElement_eq]
    rw [List.mem_append, ih]
    constructor
    · rintro (h | ⟨k, hk, h⟩)
      · refine ⟨0, by simp, ?_⟩
        simpa using h
      · refine ⟨k + 1, by simpa using Nat.succ_lt_succ hk, ?_⟩
        simpa [Nat.add_assoc, Nat.add_comm 1 k] using h
    · rintro ⟨k, hk, h⟩
      cases k with
      | zero =>
        left
        simpa using h
      | succ k =>
        right
        refine ⟨k, by simpa using Nat.lt_of_succ_lt_succ hk, ?_⟩
        simpa [Nat.add_assoc, Nat.add_comm 1 k] using h

theorem runEnrich_reg_isSome_mono (env : PageEnv) :
    ∀ (ds : List ElementData) (st : EnrichState) (key : String),
      (st.reg.get key).isSome →
      ((runEnrich env ds st).2.reg.get key).isSome := by
  intro ds
  induction ds with
  | nil => intro st key h; simpa [runEnrich] using h
  | cons ed rest ih =>
    intro st key h
    simp only [runEnrich, enrichElement_eq]
    apply ih
    by_cases h0 : (resolveXPath env.tree ed.xpath).length = 0
    · simpa [h0] using h
    · simp only [h0, if_false]
      exact RegMap.get_set_isSome _ _ _ _ h

/-- Every id of a produced element is bound in the pass's final
registry. -/
theorem runEnrich_mem_reg (env : PageEnv) :
    ∀ (ds : List ElementData) (st : EnrichState) (e : ElementSnapshot),
      e ∈ (runEnrich env ds st).1 →
      ((runEnrich env ds st).2.reg.get e.id).isSome := by
  intro ds
  induction ds with
  | nil => intro st e h; simp [runEnrich] at h
  | cons ed rest ih =>
    intro st e h
    simp only [runEnrich, enrichElement_eq] at h ⊢
    rcases List.mem_append.mp h with h1 | h2
    · have hsome : enrichPure env ed st.counter = some e := by simpa using h1
      have hid := enrichPure_some_id hsome
      have h0 := enrichPure_some_resolves hsome
      apply runEnrich_reg_isSome_mono
      simp only [h0, if_false]
      rw [hid, RegMap.get_set_self]
      rfl
    · exact ih _ _ h2

/-- The final registry agrees with the starting registry on every key
that is not one of the ids generated during the pass. -/
theorem runEnrich_reg_untouched (env : PageEnv) :
    ∀ (ds : List ElementData) (st : EnrichState) (key : String),
      (∀ k (h : k < ds.length),
        key ≠ generateElementId (ds.get ⟨k, h⟩).role (st.counter + k)) →
      (runEnrich env ds st).2.reg.get key = st.reg.get key := by
  intro ds
  induction ds with
  | nil => intro st key _; simp [runEnrich]
  | cons ed rest ih =>
    intro st key hk
    simp only [runEnrich, enrichElement_eq]
    rw [ih]
    · by_cases h0 : (resolveXPath env.tree ed.xpath).length = 0
      · simp [h0]
      · simp only [h0, if_false]
        apply RegMap.get_set_ne
        have := hk 0 (by simp)
        simpa using this
    · intro k h
      have := hk (k + 1) (by simpa using Nat.succ_lt_succ h)
      simpa [Nat.add_assoc, Nat.add_comm 1 k] using this

/-- A descriptor whose xpath matches gets its generated id bound to its
own locator in the final registry of the pass. -/
theorem runEnrich_reg_lookup (env : PageEnv) :
    ∀ (ds : List ElementData) (st : EnrichState) (k : Nat) (h : k < ds.length),
      (resolveXPath env.tree (ds.get ⟨k, h⟩).xpath).length ≠ 0 →
      (runEnrich env ds st).2.reg.get
          (generateElementId (ds.get ⟨k, h⟩).role (st.counter + k)) =
        some (ds.get ⟨k, h⟩).xpath := by
  intro ds
  induction ds with
  | nil => intro st k h; simp at h
  | cons ed rest ih =>
    intro st k h hres
    cases k with
    | zero =>
      simp only [List.get] at hres ⊢
      simp only [runEnrich, enrichElement_eq]
      rw [runEnrich_reg_untouched]
      · simp only [if_neg hres, Nat.add_zero]
        exact RegMap.get_set_self _ _ _
      · intro j hj hkey
        have hcj := generateElementId_counter_inj hkey
        simp only [Nat.add_zero] at hcj
        omega
    | succ k =>
      simp only [List.get] at hres ⊢
      simp only [runEnrich, enrichElement_eq]
      have hk2 : k < rest.length := by
        simp only [List.length_cons] at h
        omega
      have := ih ⟨if (resolveXPath env.tree ed.xpath).length = 0 then st.reg
          else st.reg.set (generateElementId ed.role st.counter) ed.xpath,
        st.counter + 1⟩ k hk2 hres
      simpa [Nat.add_assoc, Nat.add_comm 1 k] using this

/-- Every id of a produced element has the canonical `role_counter` shape
with a counter at least the starting counter. -/
theorem runEnrich_mem_id_form (env : PageEnv) {ds : List ElementData}
    {st : EnrichState} {e : ElementSnapshot}
    (h : e ∈ (runEnrich env ds st).1) :
    ∃ k, ∃ hk : k < ds.length,
      e.id = generateElementId (ds.get ⟨k, hk⟩).role (st.counter + k) := by
  obtain ⟨k, hk, hsome⟩ := (runEnrich_mem_iff env ds st e).mp h
  exact ⟨k, hk, enrichPure_some_id hsome⟩

/-- The ids of the elements produced by one pass are pairwise distinct. -/
theorem runEnrich_ids_nodup (env : PageEnv) :
    ∀ (ds : List ElementData) (st : EnrichState),
      ((runEnrich env ds st).1.map (fun e => e.id)).Nodup := by
  intro ds
  induction ds with
  | nil => intro st; simp [runEnrich]
  | cons ed rest ih =>
    intro st
    simp only [runEnrich, enrichElement_eq, List.map_append, List.nodup_append]
    refine ⟨?_, ih _, ?_⟩
    · cases hp : enrichPure env ed st.counter <;> simp
    · intro a ha
      rcases List.mem_map.mp ha with ⟨e, he, rfl⟩
      have hid : e.id = generateElementId ed.role st.counter := by
        cases hp : enrichPure env ed st.counter with
        | none => rw [hp] at he; simp at he
        | some e0 =>
          rw [hp] at he
          simp at he
          subst he
          exact enrichPure_some_id hp
      intro hmem
      rcases List.mem_map.mp hmem with ⟨e2, he2, heq⟩
      obtain ⟨k, hk, hform⟩ := runEnrich_mem_id_form env he2
      rw [hid] at heq
      rw [hform] at heq
      have := generateElementId_counter_inj heq
      simp at this
      omega

/-! ### Lemmas: the document walk and first-match resolution -/

theorem taggedChildren_get (tag : String) :
    ∀ (pre : List DomTree) (c : DomTree) (post : List DomTree) (i0 : Nat),
      c.tagOf = tag →
      (taggedChildren (pre ++ c :: post) tag i0)[countTag pre tag]? =
        some (i0 + pre.length, c) := by
  intro pre
  induction pre with
  | nil =>
    intro c post i0 hc
    simp [taggedChildren, countTag, hc]
  | cons d pre ih =>
    intro c post i0 hc
    rw [List.cons_append]
    by_cases hd : d.tagOf = tag
    · have hcount : countTag (d :: pre) tag = countTag pre tag + 1 := by
        simp [countTag, hd]
      rw [taggedChildren, if_pos hd, hcount, List.getElem?_cons_succ,
        ih c post (i0 + 1) hc]
      simp only [List.length_cons, Option.some.injEq, Prod.mk.injEq]
      exact ⟨by omega, trivial⟩
    · have hcount : countTag (d :: pre) tag = countTag pre tag := by
        simp [countTag, hd]
      rw [taggedChildren, if_neg hd, hcount, ih c post (i0 + 1) hc]
      simp only [List.length_cons, Option.some.injEq, Prod.mk.injEq]
      exact ⟨by omega, trivial⟩

theorem expandNode_cons (e : DomElem) (orig : List DomTree) (i : Nat)
    (c : DomTree) (rest : List DomTree) (p : Pos)
    (hdrop : orig.drop i = c :: rest) :
    ∃ zs, expandNode (p, DomTree.node e orig)
        (c.tagOf, countTag (orig.take i) c.tagOf) = (p ++ [i], c) :: zs := by
  have hlen : i < orig.length := by
    by_contra hle
    rw [List.drop_eq_nil_of_le (by omega)] at hdrop
    simp at hdrop
  have hsplit : orig = orig.take i ++ c :: rest := by
    conv_lhs => rw [← List.take_append_drop i orig]
    rw [hdrop]
  have htake : (orig.take i).length = i := by
    rw [List.length_take]
    omega
  have hget : (taggedChildren orig c.tagOf 0)[countTag (orig.take i) c.tagOf]? =
      some (i, c) := by
    have h1 := taggedChildren_get c.tagOf (orig.take i) c rest 0 rfl
    rw [← hsplit, htake] at h1
    simpa using h1
  by_cases h0 : countTag (orig.take i) c.tagOf = 0
  · rw [h0] at hget
    obtain ⟨tl, htl⟩ : ∃ tl, taggedChildren orig c.tagOf 0 = (i, c) :: tl := by
      cases htag : taggedChildren orig c.tagOf 0 with
      | nil => rw [htag] at hget; simp at hget
      | cons x tl =>
        rw [htag] at hget
        simp at hget
        exact ⟨tl, by rw [hget]⟩
    refine ⟨tl.map (fun ic => (p ++ [ic.1], ic.2)), ?_⟩
    simp [expandNode, DomTree.childrenOf, h0, htl]
  · refine ⟨[], ?_⟩
    simp [expandNode, DomTree.childrenOf, h0, hget]

mutual
theorem walkTree_shape (t : DomTree) (p : Pos) (segs : List Seg) (r : RawElem)
    (h : r ∈ walkTree t p segs) :
    (∃ rel, r.segs = segs ++ rel) ∧ ∃ rp, r.pos = p ++ rp := by
  cases t with
  | node e cs =>
    rw [walkTree] at h
    rcases List.mem_cons.mp h with hroot | hrest
    · subst hroot
      exact ⟨⟨[], by simp⟩, ⟨[], by simp⟩⟩
    · obtain ⟨hsegs, j, rp, _, hpos⟩ := walkChildren_shape cs cs p segs 0 r hrest
      exact ⟨hsegs, ⟨j :: rp, hpos⟩⟩

theorem walkChildren_shape (orig cs : List DomTree) (p : Pos) (segs : List Seg)
    (i : Nat) (r : RawElem) (h : r ∈ walkChildren orig cs p segs i) :
    (∃ rel, r.segs = segs ++ rel) ∧ ∃ j rp, i ≤ j ∧ r.pos = p ++ j :: rp := by
  cases cs with
  | nil => rw [walkChildren] at h; simp at h
  | cons c rest =>
    rw [walkChildren] at h
    rcases List.mem_append.mp h with hleft | hright
    · obtain ⟨⟨rel2, hrel2⟩, ⟨rp2, hrp2⟩⟩ := walkTree_shape c (p ++ [i])
        (segs ++ [(c.tagOf, countTag (orig.take i) c.tagOf)]) r hleft
      refine ⟨⟨(c.tagOf, countTag (orig.take i) c.tagOf) :: rel2, ?_⟩,
        ⟨i, rp2, le_refl i, ?_⟩⟩
      · rw [hrel2, List.append_assoc]
        rfl
      · rw [hrp2, List.append_assoc]
        rfl
    · obtain ⟨hsegs, j, rp, hj, hpos⟩ :=
        walkChildren_shape orig rest p segs (i + 1) r hright
      exact ⟨hsegs, ⟨j, rp, by omega, hpos⟩⟩
end

mutual
theorem walkTree_resolve (t : DomTree) (p : Pos) (segs : List Seg) (r : RawElem)
    (h : r ∈ walkTree t p segs) (rel : List Seg) (hrel : r.segs = segs ++ rel)
    (tail : List (Pos × DomTree)) :
    ∃ tr, (resolveSteps ((p, t) :: tail) rel).head? = some (r.pos, tr) := by
  cases t with
  | node e cs =>
    rw [walkTree] at h
    rcases List.mem_cons.mp h with hroot | hrest
    · have hrel0 : rel = [] := by
        have hs : segs = segs ++ rel := by rw [← hrel, hroot]
        have hlen := congrArg List.length hs
        rw [List.length_append] at hlen
        have hz : rel.length = 0 := by omega
        exact List.eq_nil_of_length_eq_zero hz
      subst hrel0
      refine ⟨DomTree.node e cs, ?_⟩
      have hp : r.pos = p := by rw [hroot]
      simp [resolveSteps, hp]
    · exact walkChildren_resolve e cs cs p segs 0 r (List.drop_zero cs) hrest rel
        hrel tail

theorem walkChildren_resolve (e : DomElem) (orig cs : List DomTree) (p : Pos)
    (segs : List Seg) (i : Nat) (r : RawElem) (hdrop : orig.drop i = cs)
    (h : r ∈ walkChildren orig cs p segs i) (rel : List Seg)
    (hrel : r.segs = segs ++ rel) (tail : List (Pos × DomTree)) :
    ∃ tr, (resolveSteps ((p, DomTree.node e orig) :: tail) rel).head? =
      some (r.pos, tr) := by
  cases cs with
  | nil => rw [walkChildren] at h; simp at h
  | cons c rest =>
    rw [walkChildren] at h
    rcases List.mem_append.mp h with hleft | hright
    · obtain ⟨⟨rel2, hrel2⟩, _⟩ := walkTree_shape c (p ++ [i])
        (segs ++ [(c.tagOf, countTag (orig.take i) c.tagOf)]) r hleft
      have hcat : segs ++ rel =
          segs ++ ((c.tagOf, countTag (orig.take i) c.tagOf) :: rel2) := by
        rw [← hrel, hrel2, List.append_assoc]
        rfl
      have hrel' : rel = (c.tagOf, countTag (orig.take i) c.tagOf) :: rel2 :=
        List.append_cancel_left hcat
      subst hrel'
      obtain ⟨zs, hz⟩ := expandNode_cons e orig i c rest p hdrop
      have hctx : resolveStep ((p, DomTree.node e orig) :: tail)
          (c.tagOf, countTag (orig.take i) c.tagOf) =
          (p ++ [i], c) :: (zs ++ tail.flatMap (fun pt => expandNode pt
            (c.tagOf, countTag (orig.take i) c.tagOf))) := by
        simp [resolveStep, hz]
      have hstep : resolveSteps ((p, DomTree.node e orig) :: tail)
          ((c.tagOf, countTag (orig.take i) c.tagOf) :: rel2) =
          resolveSteps (resolveStep ((p, DomTree.node e orig) :: tail)
            (c.tagOf, countTag (orig.take i) c.tagOf)) rel2 := rfl
      rw [hstep, hctx]
      exact walkTree_resolve c (p ++ [i])
        (segs ++ [(c.tagOf, countTag (orig.take i) c.tagOf)]) r hleft rel2 hrel2 _
    · have hdrop' : orig.drop (i + 1) = rest := by
        have h1 : orig.drop (i + 1) = (orig.drop i).drop 1 := by
          rw [List.drop_drop]
        rw [h1, hdrop]
        rfl
      exact walkChildren_resolve e orig rest p segs (i + 1) r hdrop' hright rel
        hrel tail
end

mutual
theorem walkTree_pos_nodup (t : DomTree) (p : Pos) (segs : List Seg) :
    ((walkTree t p segs).map (fun r => r.pos)).Nodup := by
  cases t with
  | node e cs =>
    rw [walkTree]
    simp only [List.map_cons, List.nodup_cons]
    constructor
    · intro hmem
      rcases List.mem_map.mp hmem with ⟨r, hr, hrp⟩
      obtain ⟨_, j, rp, _, hpos⟩ := walkChildren_shape cs cs p segs 0 r hr
      rw [hpos] at hrp
      have := congrArg List.length hrp
      simp at this
    · exact walkChildren_pos_nodup cs cs p segs 0

theorem walkChildren_pos_nodup (orig cs : List DomTree) (p : Pos)
    (segs : List Seg) (i : Nat) :
    ((walkChildren orig cs p segs i).map (fun r => r.pos)).Nodup := by
  cases cs with
  | nil => rw [walkChildren]; simp
  | cons c rest =>
    rw [walkChildren]
    rw [List.map_append, List.nodup_append]
    refine ⟨walkTree_pos_nodup c (p ++ [i]) _, walkChildren_pos_nodup orig rest p segs (i + 1), ?_⟩
    intro a ha hb
    rcases List.mem_map.mp ha with ⟨r1, hr1, hrp1⟩
    rcases List.mem_map.mp hb with ⟨r2, hr2, hrp2⟩
    obtain ⟨_, rp1, hpos1⟩ := walkTree_shape c (p ++ [i]) _ r1 hr1
    obtain ⟨_, j, rp2, hj, hpos2⟩ := walkChildren_shape orig rest p segs (i + 1) r2 hr2
    rw [← hrp1, hpos1] at hrp2
    rw [hpos2, List.append_assoc] at hrp2
    have hcons : ([i] ++ rp1 : List Nat) = j :: rp2 :=
      List.append_cancel_left hrp2.symm
    simp only [List.cons_append, List.nil_append, List.cons.injEq] at hcons
    omega
end

/-- Positions of the walked interactive elements are pairwise distinct. -/
theorem interactiveElems_pos_nodup (t : DomTree) :
    ((interactiveElems t).map (fun r => r.pos)).Nodup := by
  have hsub : List.Sublist ((interactiveElems t).map (fun r => r.pos))
      ((allElems t).map (fun r => r.pos)) :=
    List.Sublist.map _ (List.filter_sublist _)
  exact (walkTree_pos_nodup t [] [(t.tagOf, 0)]).sublist hsub

/-- Under document-wide uniqueness of (nonempty) id attributes, the
first match of an element's id xpath is the element itself. -/
theorem resolveById_head (t : DomTree)
    (huniq : ∀ r1 ∈ allElems t, ∀ r2 ∈ allElems t,
      r1.elem.idAttr ≠ "" → r2.elem.idAttr = r1.elem.idAttr → r2.pos = r1.pos)
    (r : RawElem) (hr : r ∈ allElems t) (hid : r.elem.idAttr ≠ "") :
    (resolveById t r.elem.idAttr).head? = some r.pos := by
  unfold resolveById
  have hrin : r ∈ (allElems t).filter (fun x => x.elem.idAttr = r.elem.idAttr) :=
    List.mem_filter.mpr ⟨hr, by simp⟩
  have hall : ∀ x ∈ (allElems t).filter (fun x => x.elem.idAttr = r.elem.idAttr),
      x.pos = r.pos := by
    intro x hx
    have hx' := List.mem_filter.mp hx
    exact huniq r hr x hx'.1 hid (by simpa using hx'.2)
  cases hl : (allElems t).filter (fun x => x.elem.idAttr = r.elem.idAttr) with
  | nil => rw [hl] at hrin; simp at hrin
  | cons x xs =>
    have hx : x.pos = r.pos := hall x (hl ▸ List.mem_cons_self x xs)
    simp [hx]

/-- First-match correctness: under document-wide uniqueness of id
attributes, the xpath `getXPath` computes for a walked element resolves
(first match) to that element. -/
theorem resolve_getXPath_head (t : DomTree)
    (huniq : ∀ r1 ∈ allElems t, ∀ r2 ∈ allElems t,
      r1.elem.idAttr ≠ "" → r2.elem.idAttr = r1.elem.idAttr → r2.pos = r1.pos)
    (r : RawElem) (hr : r ∈ allElems t) :
    (resolveXPath t (getXPath r)).head? = some r.pos := by
  by_cases hid : r.elem.idAttr = ""
  · have hx : getXPath r = .positional r.segs := by
      unfold getXPath
      simp [hid]
    rw [hx]
    obtain ⟨⟨rel, hrel⟩, _⟩ := walkTree_shape t [] [(t.tagOf, 0)] r hr
    have hsegs : r.segs = (t.tagOf, 0) :: rel := by simpa using hrel
    obtain ⟨tr, htr⟩ := walkTree_resolve t [] [(t.tagOf, 0)] r hr rel hrel []
    show (resolvePositional t r.segs).head? = some r.pos
    rw [hsegs]
    show ((resolveSteps
        (if t.tagOf = t.tagOf ∧ (0 : Nat) = 0 then [(([] : Pos), t)] else [])
        rel).map (fun pt => pt.1)).head? = some r.pos
    rw [if_pos ⟨rfl, rfl⟩, List.head?_map, htr]
    rfl
  · have hx : getXPath r = .byId r.elem.idAttr := by
      unfold getXPath
      simp [hid]
    rw [hx]
    exact resolveById_head t huniq r hr hid

/-! ### Claim theorems: the snapshot / registry invariants (C1–C4) -/

/-- C1: every element id appearing in the `PageSnapshot` a generation
pass returns is bound in the locator registry the pass returns, and the
binding persists until the next generation pass: a subsequent pass clears
the registry first, so its outcome is completely independent of the
registry contents left behind (nothing else ever writes the map). -/
theorem C1_snapshot_ids_live_in_registry (env : PageEnv) (reg : RegMap) :
    (∀ e ∈ (generateAccessibilitySnapshot env reg).1.elements,
      ((generateAccessibilitySnapshot env reg).2.get e.id).isSome) ∧
    (∀ (env2 : PageEnv) (reg2 : RegMap),
      generateAccessibilitySnapshot env2 ((generateAccessibilitySnapshot env reg).2) =
        generateAccessibilitySnapshot env2 reg2) := by
  constructor
  · intro e he
    simp only [generateAccessibilitySnapshot] at he ⊢
    exact runEnrich_mem_reg env _ _ e he
  · intro env2 reg2
    rfl

/-- C1 witness: the invariant instantiated on a concrete page. -/
theorem C1_witness :
    (∀ e ∈ (generateAccessibilitySnapshot fixtureEnvDup []).1.elements,
      ((generateAccessibilitySnapshot fixtureEnvDup []).2.get e.id).isSome) ∧
    (∀ (env2 : PageEnv) (reg2 : RegMap),
      generateAccessibilitySnapshot env2
          ((generateAccessibilitySnapshot fixtureEnvDup []).2) =
        generateAccessibilitySnapshot env2 reg2) :=
  C1_snapshot_ids_live_in_registry fixtureEnvDup []

/-- C2: a descriptor whose xpath matches at least one element is
registered (id → locator) before the visibility check; if its first
match is reported not visible the element is dropped from the returned
list while the registry entry survives, so after the pass the registry
binds an id — still resolving to a live element — that occurs in no
snapshot entry. -/
theorem C2_hidden_element_leaves_registry_entry (env : PageEnv) (reg : RegMap)
    (k : Nat) (hk : k < (extractElementsData env.tree).length)
    (hres : (resolveXPath env.tree
      ((extractElementsData env.tree).get ⟨k, hk⟩).xpath).length ≠ 0)
    (hvis : env.visible (resolveXPath env.tree
      ((extractElementsData env.tree).get ⟨k, hk⟩).xpath).headI = false) :
    (generateAccessibilitySnapshot env reg).2.get
        (generateElementId ((extractElementsData env.tree).get ⟨k, hk⟩).role k) =
      some ((extractElementsData env.tree).get ⟨k, hk⟩).xpath ∧
    ∀ e ∈ (generateAccessibilitySnapshot env reg).1.elements,
      e.id ≠ generateElementId ((extractElementsData env.tree).get ⟨k, hk⟩).role k := by
  constructor
  · simp only [generateAccessibilitySnapshot]
    have := runEnrich_reg_lookup env (extractElementsData env.tree) ⟨RegMap.clear reg, 0⟩ k hk hres
    simpa using this
  · intro e he heq
    simp only [generateAccessibilitySnapshot] at he
    obtain ⟨j, hj, hsome⟩ := (runEnrich_mem_iff env _ _ e).mp he
    have hidj := enrichPure_some_id hsome
    rw [hidj] at heq
    have hjk : j = k := by
      have := generateElementId_counter_inj heq
      simpa using this
    subst hjk
    have hnone := enrichPure_none_of_invisible (0 + j) hres hvis
    rw [hsome] at hnone
    cases hnone

/-- C2 witness: on a page with a visible and a hidden button, the pass
registers `button_1` for the hidden one yet returns no element with that
id. -/
theorem C2_witness :
    (generateAccessibilitySnapshot fixtureEnvHidden []).2.get
        (generateElementId
          ((extractElementsData fixtureEnvHidden.tree).get ⟨1, by decide⟩).role 1) =
      some ((extractElementsData fixtureEnvHidden.tree).get ⟨1, by decide⟩).xpath ∧
    ∀ e ∈ (generateAccessibilitySnapshot fixtureEnvHidden []).1.elements,
      e.id ≠ generateElementId
        ((extractElementsData fixtureEnvHidden.tree).get ⟨1, by decide⟩).role 1 :=
  C2_hidden_element_leaves_registry_entry fixtureEnvHidden [] 1 (by decide)
    (by decide) (by decide)

/-- C3: every id assigned during a pass is `role ++ "_" ++ counter` with
the counter starting at zero and bumped on every assignment — so each
snapshot element's id carries its descriptor index — all ids in one
returned snapshot are pairwise distinct, and re-running a pass on the
same page reproduces the same snapshot (the counter and registry are
reset, so id values recur across generations). -/
theorem C3_id_shape_unique_within_generation (env : PageEnv) (reg : RegMap) :
    (∀ e ∈ (generateAccessibilitySnapshot env reg).1.elements,
      ∃ k, ∃ hk : k < (extractElementsData env.tree).length,
        e.id = generateElementId ((extractElementsData env.tree).get ⟨k, hk⟩).role k) ∧
    ((generateAccessibilitySnapshot env reg).1.elements.map (fun e => e.id)).Nodup ∧
    (∀ reg2 : RegMap,
      (generateAccessibilitySnapshot env reg2).1 =
        (generateAccessibilitySnapshot env reg).1) := by
  refine ⟨?_, ?_, ?_⟩
  · intro e he
    simp only [generateAccessibilitySnapshot] at he
    obtain ⟨k, hk, hform⟩ := runEnrich_mem_id_form env he
    exact ⟨k, hk, by simpa using hform⟩
  · simpa only [generateAccessibilitySnapshot] using
      runEnrich_ids_nodup env (extractElementsData env.tree) ⟨RegMap.clear reg, 0⟩
  · intro reg2
    rfl

/-- C3 witness: the id discipline instantiated on a concrete page. -/
theorem C3_witness :
    (∀ e ∈ (generateAccessibilitySnapshot fixtureEnvDup []).1.elements,
      ∃ k, ∃ hk : k < (extractElementsData fixtureEnvDup.tree).length,
        e.id = generateElementId
          ((extractElementsData fixtureEnvDup.tree).get ⟨k, hk⟩).role k) ∧
    ((generateAccessibilitySnapshot fixtureEnvDup []).1.elements.map
      (fun e => e.id)).Nodup ∧
    (∀ reg2 : RegMap,
      (generateAccessibilitySnapshot fixtureEnvDup reg2).1 =
        (generateAccessibilitySnapshot fixtureEnvDup []).1) :=
  C3_id_shape_unique_within_generation fixtureEnvDup []

/-- C4 counterexample: on a document whose two buttons share the id
attribute `x`, one pass returns the two distinct ids `button_0` and
`button_1` whose registered locators resolve (first match of
`//*[@id="x"]`) to the same element — the claim's identifier
exclusivity fails for a page the extraction pass walks. -/
theorem C4_counterexample :
    ((generateAccessibilitySnapshot fixtureEnvDup []).1.elements.map
      (fun e => e.id)) = ["button_0", "button_1"] ∧
    ("button_0" : String) ≠ "button_1" ∧
    ((generateAccessibilitySnapshot fixtureEnvDup []).2.get "button_0").map
        (Locator.resolveFirst fixtureEnvDup.tree) = some (some [0]) ∧
    ((generateAccessibilitySnapshot fixtureEnvDup []).2.get "button_1").map
        (Locator.resolveFirst fixtureEnvDup.tree) = some (some [0]) := by
  refine ⟨by decide, by decide, by decide, by decide⟩

/-- C4 amended: identifier exclusivity holds for every page in which no
two elements share a nonempty id attribute (the unique-id well-formedness
HTML demands): within one snapshot, distinct ids resolve through the
returned registry to distinct page elements. -/
theorem C4_amended_distinct_ids_distinct_elements (env : PageEnv) (reg : RegMap)
    (huniq : ∀ r1 ∈ allElems env.tree, ∀ r2 ∈ allElems env.tree,
      r1.elem.idAttr ≠ "" → r2.elem.idAttr = r1.elem.idAttr → r2.pos = r1.pos) :
    ∀ e1 ∈ (generateAccessibilitySnapshot env reg).1.elements,
    ∀ e2 ∈ (generateAccessibilitySnapshot env reg).1.elements,
      e1.id ≠ e2.id →
      ∃ l1 l2 p1 p2,
        (generateAccessibilitySnapshot env reg).2.get e1.id = some l1 ∧
        (generateAccessibilitySnapshot env reg).2.get e2.id = some l2 ∧
        Locator.resolveFirst env.tree l1 = some p1 ∧
        Locator.resolveFirst env.tree l2 = some p2 ∧
        p1 ≠ p2 := by
  intro e1 he1 e2 he2 hne
  simp only [generateAccessibilitySnapshot] at he1 he2 ⊢
  obtain ⟨k1, hk1, hp1⟩ := (runEnrich_mem_iff env _ _ e1).mp he1
  obtain ⟨k2, hk2, hp2⟩ := (runEnrich_mem_iff env _ _ e2).mp he2
  have hkne : k1 ≠ k2 := by
    intro hkk
    subst hkk
    rw [hp1] at hp2
    cases hp2
    exact hne rfl
  have hid1 := enrichPure_some_id hp1
  have hid2 := enrichPure_some_id hp2
  have hres1 := enrichPure_some_resolves hp1
  have hres2 := enrichPure_some_resolves hp2
  have hl1 := runEnrich_reg_lookup env (extractElementsData env.tree)
    ⟨RegMap.clear reg, 0⟩ k1 hk1 hres1
  have hl2 := runEnrich_reg_lookup env (extractElementsData env.tree)
    ⟨RegMap.clear reg, 0⟩ k2 hk2 hres2
  have hklen : (extractElementsData env.tree).length =
      (interactiveElems env.tree).length := by
    simp [extractElementsData]
  have hk1' : k1 < (interactiveElems env.tree).length := by omega
  have hk2' : k2 < (interactiveElems env.tree).length := by omega
  have hds1 : (extractElementsData env.tree).get ⟨k1, hk1⟩ =
      mkElementData env.tree ((interactiveElems env.tree).get ⟨k1, hk1'⟩) := by
    simp [extractElementsData, List.get_eq_getElem, List.getElem_map]
  have hds2 : (extractElementsData env.tree).get ⟨k2, hk2⟩ =
      mkElementData env.tree ((interactiveElems env.tree).get ⟨k2, hk2'⟩) := by
    simp [extractElementsData, List.get_eq_getElem, List.getElem_map]
  have hmem1 : (interactiveElems env.tree).get ⟨k1, hk1'⟩ ∈ allElems env.tree := by
    have := List.get_mem (interactiveElems env.tree) k1 hk1'
    exact List.mem_of_mem_filter this
  have hmem2 : (interactiveElems env.tree).get ⟨k2, hk2'⟩ ∈ allElems env.tree := by
    have := List.get_mem (interactiveElems env.tree) k2 hk2'
    exact List.mem_of_mem_filter this
  have hfm1 := resolve_getXPath_head env.tree huniq _ hmem1
  have hfm2 := resolve_getXPath_head env.tree huniq _ hmem2
  have hposne : ((interactiveElems env.tree).get ⟨k1, hk1'⟩).pos ≠
      ((interactiveElems env.tree).get ⟨k2, hk2'⟩).pos := by
    intro hpp
    have hnd := interactiveElems_pos_nodup env.tree
    have hlenm : ((interactiveElems env.tree).map (fun r => r.pos)).length =
        (interactiveElems env.tree).length := List.length_map _ _
    have hi1 : k1 < ((interactiveElems env.tree).map (fun r => r.pos)).length := by
      rw [hlenm]; exact hk1'
    have hi2 : k2 < ((interactiveElems env.tree).map (fun r => r.pos)).length := by
      rw [hlenm]; exact hk2'
    have hget1 : ((interactiveElems env.tree).map (fun r => r.pos)).get ⟨k1, hi1⟩ =
        ((interactiveElems env.tree).get ⟨k1, hk1'⟩).pos := by
      simp [List.get_eq_getElem, List.getElem_map]
    have hget2 : ((interactiveElems env.tree).map (fun r => r.pos)).get ⟨k2, hi2⟩ =
        ((interactiveElems env.tree).get ⟨k2, hk2'⟩).pos := by
      simp [List.get_eq_getElem, List.getElem_map]
    have heqF : (⟨k1, hi1⟩ : Fin ((interactiveElems env.tree).map
        (fun r => r.pos)).length) = ⟨k2, hi2⟩ := by
      apply (List.Nodup.get_inj_iff hnd).mp
      rw [hget1, hget2, hpp]
    exact hkne (congrArg Fin.val heqF)
  refine ⟨((extractElementsData env.tree).get ⟨k1, hk1⟩).xpath,
    ((extractElementsData env.tree).get ⟨k2, hk2⟩).xpath,
    ((interactiveElems env.tree).get ⟨k1, hk1'⟩).pos,
    ((interactiveElems env.tree).get ⟨k2, hk2'⟩).pos, ?_, ?_, ?_, ?_, hposne⟩
  · rw [hid1]
    simpa using hl1
  · rw [hid2]
    simpa using hl2
  · show (resolveXPath env.tree _).head? = _
    rw [hds1]
    show (resolveXPath env.tree (getXPath _)).head? = _
    exact hfm1
  · show (resolveXPath env.tree _).head? = _
    rw [hds2]
    show (resolveXPath env.tree (getXPath _)).head? = _
    exact hfm2

/-- C4 amended witness: on a well-formed two-button page the two snapshot
ids resolve to the two distinct buttons. -/
theorem C4_amended_witness :
    ∃ l1 l2 p1 p2,
      (generateAccessibilitySnapshot fixtureEnvPlain []).2.get "button_0" = some l1 ∧
      (generateAccessibilitySnapshot fixtureEnvPlain []).2.get "button_1" = some l2 ∧
      Locator.resolveFirst fixtureEnvPlain.tree l1 = some p1 ∧
      Locator.resolveFirst fixtureEnvPlain.tree l2 = some p2 ∧
      p1 ≠ p2 := by
  have h := C4_amended_distinct_ids_distinct_elements fixtureEnvPlain [] (by decide)
    ((generateAccessibilitySnapshot fixtureEnvPlain []).1.elements.get ⟨0, by decide⟩)
    (List.get_mem _ 0 (by decide))
    ((generateAccessibilitySnapshot fixtureEnvPlain []).1.elements.get ⟨1, by decide⟩)
    (List.get_mem _ 1 (by decide))
    (by decide)
  have hid0 : ((generateAccessibilitySnapshot fixtureEnvPlain []).1.elements.get
      ⟨0, by decide⟩).id = "button_0" := by decide
  have hid1 : ((generateAccessibilitySnapshot fixtureEnvPlain []).1.elements.get
      ⟨1, by decide⟩).id = "button_1" := by decide
  rw [hid0, hid1] at h
  exact h

/-! ### Lemmas: backward conversation scan and string containment -/

theorem extractValidationResultRev_skip :
    ∀ (l rest : List Msg), (∀ m ∈ l, mentionsTerminalTool m = false) →
      extractValidationResultRev (l ++ rest) = extractValidationResultRev rest := by
  intro l
  induction l with
  | nil => intro rest _; rfl
  | cons m l ih =>
    intro rest hall
    have hm := hall m (List.mem_cons_self m l)
    have hrest : ∀ x ∈ l, mentionsTerminalTool x = false :=
      fun x hx => hall x (List.mem_cons_of_mem m hx)
    cases m with
    | system s => simpa [extractValidationResultRev] using ih rest hrest
    | human s => simpa [extractValidationResultRev] using ih rest hrest
    | tool name parsed =>
      have hname : ¬ (name = "ReturnValidationResult") := by
        simpa [mentionsTerminalTool] using hm
      simpa [extractValidationResultRev, hname] using ih rest hrest
    | ai content toolCalls kw =>
      have hfind : toolCalls.find?
          (fun tc => tc.name = "ReturnValidationResult") = none := by
        rw [List.find?_eq_none]
        intro tc htc
        simp only [mentionsTerminalTool, List.any_eq_true, not_exists] at hm
        simp only [decide_eq_true_eq]
        intro hcontra
        rw [List.any_eq_false] at hm
        have := hm tc htc
        simp [hcontra] at this
      simpa [extractValidationResultRev, hfind] using ih rest hrest

theorem extractValidationResultRev_none :
    ∀ l : List Msg, (∀ m ∈ l, mentionsTerminalTool m = false) →
      extractValidationResultRev l =
        .error "Validation result not found in agent response. The agent did not call ReturnValidationResult." := by
  intro l hall
  have := extractValidationResultRev_skip l [] hall
  simpa using this

theorem intercalate_go_starts (s : String) :
    ∀ (as : List String) (acc : String),
      acc.data <+: (String.intercalate.go acc s as).data := by
  intro as
  induction as with
  | nil => intro acc; exact List.prefix_refl _
  | cons a as ih =>
    intro acc
    have h1 : acc.data <+: (acc ++ s ++ a).data := by
      show acc.data <+: (acc.data ++ s.data ++ a.data)
      rw [List.append_assoc]
      exact List.prefix_append _ _
    exact h1.trans (ih (acc ++ s ++ a))

theorem intercalate_go_infix (s : String) :
    ∀ (as : List String) (acc p : String), p ∈ as →
      List.IsInfix p.data (String.intercalate.go acc s as).data := by
  intro as
  induction as with
  | nil => intro acc p hp; simp at hp
  | cons a as ih =>
    intro acc p hp
    rcases List.mem_cons.mp hp with rfl | hp'
    · have hsuf : List.IsSuffix p.data (acc ++ s ++ p).data := by
        show List.IsSuffix p.data (acc.data ++ s.data ++ p.data)
        exact ⟨acc.data ++ s.data, by rw [List.append_assoc]⟩
      have hpre := intercalate_go_starts s as (acc ++ s ++ p)
      exact hsuf.isInfix.trans hpre.isInfix
    · exact ih (acc ++ s ++ a) p hp'

/-- Every joined part occurs verbatim inside an intercalated string. -/
theorem intercalate_infix (s : String) (parts : List String) (p : String)
    (hp : p ∈ parts) :
    List.IsInfix p.data (String.intercalate s parts).data := by
  cases parts with
  | nil => simp at hp
  | cons a as =>
    rcases List.mem_cons.mp hp with rfl | hp'
    · exact (intercalate_go_starts s as p).isInfix
    · exact intercalate_go_infix s as a p hp'

/-! ### Claim theorems: agent session protocols and action tools
(C5–C10) -/

/-- C5: `test`'s answer extraction scans the conversation from the most
recent message backward; a completed `ReturnValidationResult` tool result
yields its parsed `result`, a pending `ReturnValidationResult` tool call
yields its `result` argument, and when no message in the history carries
the terminal tool in either shape the call throws instead of defaulting. -/
theorem C5_terminal_result_backward_scan :
    (∀ msgs : List Msg, (∀ m ∈ msgs, mentionsTerminalTool m = false) →
      extractValidationResult msgs =
        .error "Validation result not found in agent response. The agent did not call ReturnValidationResult.") ∧
    (∀ (pre suf : List Msg) (r : ValidationPayload),
      (∀ m ∈ suf, mentionsTerminalTool m = false) →
      extractValidationResult
          (pre ++ Msg.tool "ReturnValidationResult" (.ok r) :: suf) =
        .ok r.result) ∧
    (∀ (pre suf : List Msg) (content : MsgContent) (kw : Option Json)
      (tcpre : List ToolCall) (tc : ToolCall) (tcsuf : List ToolCall),
      (∀ m ∈ suf, mentionsTerminalTool m = false) →
      (∀ x ∈ tcpre, x.name ≠ "ReturnValidationResult") →
      tc.name = "ReturnValidationResult" →
      extractValidationResult
          (pre ++ Msg.ai content (tcpre ++ tc :: tcsuf) kw :: suf) =
        .ok tc.argsResult) := by
  refine ⟨?_, ?_, ?_⟩
  · intro msgs hall
    unfold extractValidationResult
    apply extractValidationResultRev_none
    intro m hm
    exact hall m (List.mem_reverse.mp hm)
  · intro pre suf r hsuf
    unfold extractValidationResult
    rw [List.reverse_append, List.reverse_cons, List.append_assoc]
    rw [extractValidationResultRev_skip suf.reverse _
      (fun m hm => hsuf m (List.mem_reverse.mp hm))]
    simp [extractValidationResultRev]
  · intro pre suf content kw tcpre tc tcsuf hsuf htcpre htc
    unfold extractValidationResult
    rw [List.reverse_append, List.reverse_cons, List.append_assoc]
    rw [extractValidationResultRev_skip suf.reverse _
      (fun m hm => hsuf m (List.mem_reverse.mp hm))]
    have hfind : (tcpre ++ tc :: tcsuf).find?
        (fun x => x.name = "ReturnValidationResult") = some tc := by
      rw [List.find?_append]
      have hnone : tcpre.find? (fun x => x.name = "ReturnValidationResult") = none := by
        rw [List.find?_eq_none]
        intro x hx
        simpa using htcpre x hx
      rw [hnone]
      simp [List.find?_cons, htc]
    simp [extractValidationResultRev, hfind]

/-- C5 witness: a history with the completed terminal tool result
yields its boolean; a history without it throws. -/
theorem C5_witness :
    extractValidationResult
        [Msg.human "Validate: condition",
         Msg.tool "ReturnValidationResult" (.ok ⟨true, "seen"⟩)] = .ok true ∧
    extractValidationResult [Msg.human "Validate: condition"] =
      .error "Validation result not found in agent response. The agent did not call ReturnValidationResult." := by
  constructor
  · exact C5_terminal_result_backward_scan.2.1 [Msg.human "Validate: condition"]
      [] ⟨true, "seen"⟩ (by intro m hm; simp at hm)
  · exact C5_terminal_result_backward_scan.1 [Msg.human "Validate: condition"]
      (by intro m hm; simp at hm; rw [hm]; rfl)

/-- C6: an id absent from the registry makes both id-based action tools
fail with the error naming the id and demanding a fresh snapshot, and
neither tool touches the driver (no click, no editability check, no
fill). -/
theorem C6_unknown_id_fails_before_driver (reg : RegMap) (elementId text : String)
    (clickResult : Locator → Except String Unit)
    (isEditableResult : Locator → Bool)
    (fillResult : Locator → String → Except String Unit)
    (habs : reg.get elementId = none) :
    clickByElementIdTool reg clickResult elementId =
      { result := .error ("Element ID \"" ++ elementId ++
          "\" not found in registry. Please take a fresh DOM snapshot first using GetDOMSnapshot tool.")
        ops := [] } ∧
    inputByElementIdTool reg isEditableResult fillResult elementId text =
      { result := .error ("Element ID \"" ++ elementId ++
          "\" not found in registry. Please take a fresh DOM snapshot first using GetDOMSnapshot tool.")
        ops := [] } := by
  constructor
  · simp [clickByElementIdTool, habs]
  · simp [inputByElementIdTool, habs]

/-- C6 witness: the stale id `button_7` against an empty registry. -/
theorem C6_witness :
    clickByElementIdTool [] (fun _ => .ok ()) "button_7" =
      { result := .error ("Element ID \"button_7\" not found in registry. Please take a fresh DOM snapshot first using GetDOMSnapshot tool.")
        ops := [] } ∧
    inputByElementIdTool [] (fun _ => true) (fun _ _ => .ok ()) "button_7" "hi" =
      { result := .error ("Element ID \"button_7\" not found in registry. Please take a fresh DOM snapshot first using GetDOMSnapshot tool.")
        ops := [] } :=
  C6_unknown_id_fails_before_driver [] "button_7" "hi" (fun _ => .ok ())
    (fun _ => true) (fun _ _ => .ok ()) rfl

/-- C7 counterexample: `do` does not hand the final advisory text back to
its caller — the method body ends in `return console.log(...)`, so the
text is written to the console and the caller receives `undefined`. -/
theorem C7_counterexample :
    (AWAgent.doTask fixtureDoLoop "task").map (fun o => o.consoleLogged) =
      some (.str "All done") ∧
    (AWAgent.doTask fixtureDoLoop "task").map (fun o => o.returned) =
      some none ∧
    (none : Option MsgContent) ≠ some (.str "All done") := by
  refine ⟨rfl, rfl, by simp⟩

/-- C7 amended: `do(task)` runs the agent runtime's loop to completion
and then logs the final message's content to the console, returning
`undefined` (no value) to the caller; the text is not returned. -/
theorem C7_do_logs_final_text (invokeAgent : List Msg → List Msg) (task : String)
    (m : Msg) (hlast : (invokeAgent [Msg.human task]).getLast? = some m) :
    AWAgent.doTask invokeAgent task =
      some { consoleLogged := m.contentOf, returned := none } := by
  simp [AWAgent.doTask, hlast]

/-- C7 witness: the amended behaviour on a concrete loop. -/
theorem C7_witness :
    AWAgent.doTask fixtureDoLoop "task" =
      some { consoleLogged := MsgContent.str "All done", returned := none } :=
  C7_do_logs_final_text fixtureDoLoop "task" (Msg.ai (.str "All done") [] none) rfl

/-- C8: `extract` re-validates the structured answer against the original
schema: a validation failure throws a message carrying every offending
field path with its reason (each `path: reason` pair occurs verbatim in
the joined message) and no data is returned; a validation success returns
exactly the parsed, schema-conforming value. -/
theorem C8_extract_revalidates {T : Type} (jsonParse : String → Option Json)
    (msgs : List Msg) (schema : ZodSchema T) (content : MsgContent)
    (tcs : List ToolCall) (kw : Option Json) (d : Json)
    (hlast : msgs.getLast? = some (.ai content tcs kw))
    (hdata : structuredDataOf jsonParse content kw = .ok d) :
    (∀ issues, schema.parse d = .error issues →
      extractStructuredOutput jsonParse msgs schema =
        .error ("Extracted data validation failed: " ++ formatZodIssues issues) ∧
      ∀ i ∈ issues,
        List.IsInfix (String.intercalate "." i.path ++ ": " ++ i.message).data
          ("Extracted data validation failed: " ++ formatZodIssues issues).data) ∧
    (∀ v, schema.parse d = .ok v →
      extractStructuredOutput jsonParse msgs schema = .ok v) := by
  constructor
  · intro issues hparse
    constructor
    · simp [extractStructuredOutput, hlast, hdata, hparse]
    · intro i hi
      have hmem : (String.intercalate "." i.path ++ ": " ++ i.message) ∈
          issues.map (fun j => String.intercalate "." j.path ++ ": " ++ j.message) :=
        List.mem_map.mpr ⟨i, hi, rfl⟩
      have := intercalate_infix ", " _ _ hmem
      show List.IsInfix _ (("Extracted data validation failed: ").data ++
        (formatZodIssues issues).data)
      refine this.trans ⟨("Extracted data validation failed: ").data, [], ?_⟩
      simp [formatZodIssues]
  · intro v hparse
    simp [extractStructuredOutput, hlast, hdata, hparse]

/-- C8 witness: a boolean schema against a conforming and a
non-conforming structured answer. -/
theorem C8_witness :
    ((∀ issues, fixtureSchema.parse (Json.bool true) = .error issues →
      extractStructuredOutput (fun _ => none) fixtureExtractMsgs fixtureSchema =
        .error ("Extracted data validation failed: " ++ formatZodIssues issues) ∧
      ∀ i ∈ issues,
        List.IsInfix (String.intercalate "." i.path ++ ": " ++ i.message).data
          ("Extracted data validation failed: " ++ formatZodIssues issues).data) ∧
    (∀ v, fixtureSchema.parse (Json.bool true) = .ok v →
      extractStructuredOutput (fun _ => none) fixtureExtractMsgs fixtureSchema =
        .ok v)) ∧
    extractStructuredOutput (fun _ => none) fixtureExtractMsgsBad fixtureSchema =
      .error "Extracted data validation failed: items.0.price: Required, title: Expected string" := by
  constructor
  · exact C8_extract_revalidates (fun _ => none) fixtureExtractMsgs fixtureSchema
      (.obj (Json.bool true)) [] none (Json.bool true) rfl rfl
  · have h := (C8_extract_revalidates (fun _ => none) fixtureExtractMsgsBad
      fixtureSchema (.obj (Json.str "oops")) [] none (Json.str "oops") rfl rfl).1
      fixtureIssues rfl
    rw [h.1]
    rfl

/-- C9: when the id resolves but the driver reports the element not
editable, the input tool fails with the wrapped not-editable error after
only the editability check — no fill is ever issued. -/
theorem C9_not_editable_blocks_fill (reg : RegMap) (elementId text : String)
    (loc : Locator) (isEditableResult : Locator → Bool)
    (fillResult : Locator → String → Except String Unit)
    (hget : reg.get elementId = some loc)
    (hed : isEditableResult loc = false) :
    (inputByElementIdTool reg isEditableResult fillResult elementId text).result =
      .error ("Failed to input text into element " ++ elementId ++
        ": Element " ++ elementId ++ " is not editable") ∧
    (inputByElementIdTool reg isEditableResult fillResult elementId text).ops =
      [.editableCheck loc] ∧
    ∀ l t, DriverOp.fill l t ∉
      (inputByElementIdTool reg isEditableResult fillResult elementId text).ops := by
  refine ⟨?_, ?_, ?_⟩
  · simp [inputByElementIdTool, hget, hed]
  · simp [inputByElementIdTool, hget, hed]
  · intro l t
    simp [inputByElementIdTool, hget, hed]

/-- C9 witness: a registered but disabled (non-editable) text field. -/
theorem C9_witness :
    (inputByElementIdTool [("textbox_0", XPath.byId "f")] (fun _ => false)
      (fun _ _ => .ok ()) "textbox_0" "hello").result =
      .error "Failed to input text into element textbox_0: Element textbox_0 is not editable" ∧
    (inputByElementIdTool [("textbox_0", XPath.byId "f")] (fun _ => false)
      (fun _ _ => .ok ()) "textbox_0" "hello").ops =
      [.editableCheck (XPath.byId "f")] ∧
    ∀ l t, DriverOp.fill l t ∉
      (inputByElementIdTool [("textbox_0", XPath.byId "f")] (fun _ => false)
        (fun _ _ => .ok ()) "textbox_0" "hello").ops :=
  C9_not_editable_blocks_fill [("textbox_0", XPath.byId "f")] "textbox_0"
    "hello" (XPath.byId "f") (fun _ => false) (fun _ _ => .ok ()) rfl rfl

/-- C10: the trim middleware hands the model the `slice(-10)` suffix of
the request's message list — at most the last 10 messages, always a
suffix — and it is wired into the agents built by both `do` and `test`
(`extract` runs without middleware). -/
theorem C10_trim_last_ten (request : ModelRequest) (R : Type)
    (handler : ModelRequest → R) :
    trimMessagesHistoryMiddleware request handler =
      handler { messages := jsSliceLast 10 request.messages } ∧
    (jsSliceLast 10 request.messages).length = min 10 request.messages.length ∧
    List.IsSuffix (jsSliceLast 10 request.messages) request.messages ∧
    MiddlewareName.trimMessageHistory ∈ doAgentMiddleware ∧
    MiddlewareName.trimMessageHistory ∈ testAgentMiddleware ∧
    MiddlewareName.trimMessageHistory ∉ extractAgentMiddleware := by
  refine ⟨rfl, ?_, ?_, by decide, by decide, by decide⟩
  · unfold jsSliceLast
    rw [List.length_drop]
    omega
  · exact List.drop_suffix _ _

end AtomicWebAgent
